import Mathlib

/-!
Shallow embedding of the core matching-and-classification engine of
`src/quality.py` (class methods of the inventory-analysis dashboard).

Modelling conventions:
* Python floats are modelled as exact rationals (`Rat`); the arithmetic in
  the source (differences, quotients, `* 100`) is exact on the inputs the
  spec reasons about, so `Rat` captures the intended semantics.
* Python's `float(str)` built-in is modelled for the plain decimal fragment
  (optional sign, digits, at most one decimal point) that the coercion
  pipeline of `safe_float_convert` can feed it after its character
  stripping; any other shape parses to `none` (Python: raises `ValueError`,
  which the source catches and turns into `0.0`).
* The possible inputs to the coercion functions are modelled by `PyValue`:
  Python `None`, a NaN-like missing value (`pd.isna` true), or a string.
* Python dictionaries keyed by strings/pairs are modelled by their
  insertion semantics: repeated insertion overwrites, so a lookup returns
  the value from the LAST inserted entry with that key (`lookupLast`).
-/

namespace Quality

/-- Input domain of the coercion helpers: Python `None`, a NaN-like
missing value, or a string value (`src/quality.py` line 212 tests
`pd.isna(value) or value == '' or value is None`). -/
inductive PyValue where
  | pnone : PyValue
  | pnan : PyValue
  | pstr : String → PyValue
deriving DecidableEq

/-- Numeric value of a decimal digit character, `none` otherwise. -/
def digitVal (c : Char) : Option Nat :=
  if c.isDigit then some (c.toNat - 48) else none

/-- Parse a nonempty all-digit list of characters to a natural number;
`(some value)` with the digit count tracked by the caller via `List.length`. -/
def parseDigits : List Char → Option Nat
  | [] => some 0
  | c :: cs =>
    match digitVal c, parseDigits cs with
    | some d, some n => some (d * 10 ^ cs.length + n)
    | _, _ => none

/-- Model of Python `float(s)` on the plain decimal fragment: optional
sign, then digits with at most one `.` and at least one digit overall.
Returns `some (n, k)` meaning the exact value `n / 10 ^ k`, or `none`
where Python raises `ValueError`. The parts stay in `Int`/`Nat` so that
concrete strings evaluate inside the kernel. -/
def pyFloatParts : List Char → Option (Int × Nat)
  | cs =>
    let (neg, body) : Bool × List Char :=
      match cs with
      | '-' :: r => (true, r)
      | '+' :: r => (false, r)
      | r => (false, r)
    let signed : Nat → Int := fun n => if neg then -(n : Int) else (n : Int)
    match body.splitOn '.' with
    | [intPart] =>
      if intPart.isEmpty then none
      else (parseDigits intPart).map (fun n => (signed n, 0))
    | [intPart, fracPart] =>
      if intPart.isEmpty ∧ fracPart.isEmpty then none
      else
        match parseDigits intPart, parseDigits fracPart with
        | some a, some b =>
          some (signed (a * 10 ^ fracPart.length + b), fracPart.length)
        | _, _ => none
    | _ => none

/-- Rational value of a parsed decimal: `n / 10 ^ k`. -/
def ratOfParts (p : Int × Nat) : Rat :=
  (p.1 : Rat) / (10 : Rat) ^ p.2

/-- Python `str.strip()` on a character list: drop leading and trailing
whitespace. -/
def trimChars (cs : List Char) : List Char :=
  ((cs.dropWhile Char.isWhitespace).reverse.dropWhile Char.isWhitespace).reverse

/-- The character stripping of `safe_float_convert` (lines 216-218):
`str(value).strip()` then removal of every `,`, space, `₹` and `$`. -/
def stripFormat (s : String) : List Char :=
  (trimChars s.toList).filter (fun c => c ≠ ',' ∧ c ≠ ' ' ∧ c ≠ '₹' ∧ c ≠ '$')

/-- Trailing-percent removal of `safe_float_convert` (lines 220-221). -/
def stripPercent (cs : List Char) : List Char :=
  if cs.getLast? = some '%' then cs.dropLast else cs

/-- Parenthesised accounting negative of `safe_float_convert`
(lines 224-225): `(x)` becomes `-x`. -/
def parenNegative (cs : List Char) : List Char :=
  if cs.head? = some '(' ∧ cs.getLast? = some ')' then
    '-' :: (cs.drop 1).dropLast
  else cs

/-- `safe_float_convert` (lines 210-230): fails closed to `0` on `None`,
NaN, the empty string, and any string whose cleaned-up form does not parse
as a decimal number. -/
def safe_float_convert (v : PyValue) : Rat :=
  match v with
  | .pnone => 0
  | .pnan => 0
  | .pstr s =>
    if s = "" then 0
    else
      match pyFloatParts (parenNegative (stripPercent (stripFormat s))) with
      | some p => ratOfParts p
      | none => 0

/-- Python `int()` applied to a float value: truncation toward zero. -/
def pyInt (q : Rat) : Int :=
  if q < 0 then -(⌊-q⌋) else ⌊q⌋

/-- `safe_int_convert` (lines 232-234): `int(self.safe_float_convert(value))`. -/
def safe_int_convert (v : PyValue) : Int :=
  pyInt (safe_float_convert v)

/-! ### Data model

Record dictionaries of the source, as structures. Field names keep the
source's dictionary keys (lower-cased). Quantities are rationals, the
monetary `Stock_Value` is an integer (it is produced by
`safe_int_convert`). -/

/-- A standardized PFEP (reference) record (`standardize_pfep_data`,
lines 391-399). -/
structure PfepItem where
  part_no : String
  description : String
  rm_in_qty : Rat
  vendor_code : String
  vendor_name : String
  city : String
  state : String
deriving DecidableEq

/-- A standardized current-inventory record
(`standardize_current_inventory`, lines 468-473). -/
structure CurrentItem where
  part_no : String
  description : String
  current_qty : Rat
  stock_value : Int
deriving DecidableEq

/-- The `Match_Type` tag of a matched record: the source strings
`'exact'` and `'part_only'` (lines 521, 527). -/
inductive MatchType where
  | exactMatch : MatchType
  | partOnly : MatchType
deriving DecidableEq

/-- A matched record (`match_inventory_data`, lines 531-542). -/
structure MatchedItem where
  part_no : String
  description : String
  current_qty : Rat
  rm_in_qty : Rat
  stock_value : Int
  vendor_code : String
  vendor_name : String
  city : String
  state : String
  match_type : MatchType
deriving DecidableEq

/-! ### Record matcher (`match_inventory_data`, lines 487-548) -/

/-- The join-key normalization applied to part numbers and descriptions:
`.upper().strip()` (lines 497-498, 511-512). `.upper()` is modelled
per-character (the ASCII fragment), `.strip()` by `trimChars`. -/
def normKey (s : String) : List Char :=
  trimChars (s.toList.map Char.toUpper)

/-- Lookup in a Python dict built by inserting every element of `l` in
order: repeated insertion overwrites, so the entry found is the one from
the LAST element satisfying the key predicate. -/
def lookupLast (p : α → Bool) (l : List α) : Option α :=
  l.reverse.find? p

/-- The `pfep_lookup` dict lookup (lines 500-502, 518-519): key is the
normalized `(part_no, description)` pair. -/
def exactLookup (pfep : List PfepItem) (k : List Char × List Char) : Option PfepItem :=
  lookupLast (fun p => (normKey p.part_no, normKey p.description) == k) pfep

/-- The `pfep_by_part_no` dict lookup (lines 504-505, 525): key is the
normalized part number alone. -/
def partLookup (pfep : List PfepItem) (k : List Char) : Option PfepItem :=
  lookupLast (fun p => normKey p.part_no == k) pfep

/-- The matched record built at lines 531-542. The description is
`current_item['Description'] or pfep_match['Description']` (Python `or`:
the reference description when the inventory one is empty). -/
def mkMatched (c : CurrentItem) (p : PfepItem) (t : MatchType) : MatchedItem :=
  { part_no := c.part_no
    description := if c.description = "" then p.description else c.description
    current_qty := c.current_qty
    rm_in_qty := p.rm_in_qty
    stock_value := c.stock_value
    vendor_code := p.vendor_code
    vendor_name := p.vendor_name
    city := p.city
    state := p.state
    match_type := t }

/-- The per-inventory-record matching step (lines 510-528): exact match
on the `(part_no, description)` pair first, part-number-only match
otherwise, `none` when neither key is present. -/
def matchOne (pfep : List PfepItem) (c : CurrentItem) : Option MatchedItem :=
  match exactLookup pfep (normKey c.part_no, normKey c.description) with
  | some p => some (mkMatched c p .exactMatch)
  | none =>
    match partLookup pfep (normKey c.part_no) with
    | some p => some (mkMatched c p .partOnly)
    | none => none

/-- The `match_stats` counters (line 508). -/
structure MatchStats where
  exactCount : Nat
  partOnlyCount : Nat
  noMatchCount : Nat
deriving DecidableEq

/-- `match_inventory_data` (lines 487-548): one pass over the inventory,
appending to `matched_data` or `unmatched_parts` and bumping the stats. -/
def match_inventory_data (pfep : List PfepItem) :
    List CurrentItem → List MatchedItem × List CurrentItem × MatchStats
  | [] => ([], [], ⟨0, 0, 0⟩)
  | c :: rest =>
    let (m, u, s) := match_inventory_data pfep rest
    match matchOne pfep c with
    | some mi =>
      (mi :: m, u,
        match mi.match_type with
        | .exactMatch => ⟨s.exactCount + 1, s.partOnlyCount, s.noMatchCount⟩
        | .partOnly => ⟨s.exactCount, s.partOnlyCount + 1, s.noMatchCount⟩)
    | none => (m, c :: u, ⟨s.exactCount, s.partOnlyCount, s.noMatchCount + 1⟩)

/-! ### Variance classifier (`calculate_variance`, `determine_status`) -/

/-- The dictionary returned by `calculate_variance` (lines 550-563); the
source's `'ratio'` entry is the field `relQuot`. -/
structure VarData where
  percent : Rat
  absolute : Rat
  relQuot : Rat
deriving DecidableEq

/-- `calculate_variance` (lines 550-563). -/
def calculate_variance (current_qty rm_qty : Rat) : VarData :=
  if rm_qty = 0 then ⟨0, 0, 1⟩
  else ⟨(current_qty - rm_qty) / rm_qty * 100, current_qty - rm_qty, current_qty / rm_qty⟩

/-- The status strings `'Within Norms'`, `'Excess Inventory'`,
`'Short Inventory'` as an enumeration. -/
inductive Status where
  | withinNorms : Status
  | excessInv : Status
  | shortInv : Status
deriving DecidableEq

/-- `determine_status` (lines 565-578). The two severity sub-branches of
the source return the same status string, so they collapse here. -/
def determine_status (variance_percent tolerance : Rat) : Status :=
  if |variance_percent| ≤ tolerance then .withinNorms
  else if variance_percent > tolerance then .excessInv
  else .shortInv

/-! ### Aggregator (`process_matched_data`, lines 580-637) -/

/-- A processed record (lines 604-619); the fields not needed by any
claim-relevant consumer (`City`, `State`, the ratio) are carried through
only where a claim reads them. -/
structure ProcessedItem where
  part_no : String
  description : String
  current_qty : Rat
  rm_in_qty : Rat
  variance_percent : Rat
  variance_absolute : Rat
  status : Status
  stock_value : Int
  vendor_code : String
  vendor_name : String
  match_type : MatchType
deriving DecidableEq

/-- One status bucket of `summary_data` (lines 583-587). -/
structure Bucket where
  count : Nat
  value : Int
  qty_variance : Rat
deriving DecidableEq

/-- The `summary_data` dict with its three pre-seeded buckets. -/
structure Summary where
  within : Bucket
  excess : Bucket
  short : Bucket
deriving DecidableEq

/-- The bucket of a given status. -/
def Summary.bucket (s : Summary) : Status → Bucket
  | .withinNorms => s.within
  | .excessInv => s.excess
  | .shortInv => s.short

/-- The zero-seeded `summary_data` (lines 583-587). -/
def initSummary : Summary :=
  ⟨⟨0, 0, 0⟩, ⟨0, 0, 0⟩, ⟨0, 0, 0⟩⟩

/-- The per-record summary update (lines 622-625). -/
def bumpSummary (s : Summary) (st : Status) (value : Int) (dv : Rat) : Summary :=
  match st with
  | .withinNorms => { s with within := ⟨s.within.count + 1, s.within.value + value,
      s.within.qty_variance + dv⟩ }
  | .excessInv => { s with excess := ⟨s.excess.count + 1, s.excess.value + value,
      s.excess.qty_variance + dv⟩ }
  | .shortInv => { s with short := ⟨s.short.count + 1, s.short.value + value,
      s.short.qty_variance + dv⟩ }

/-- The `overall_metrics` dict (lines 628-635). -/
structure Overall where
  total_parts : Nat
  total_rm_qty : Rat
  total_current_qty : Rat
  overall_variance_percent : Rat
  total_stock_value : Int
  avg_variance : Rat

/-- The per-record processing step of the loop body (lines 592-620). -/
def processOne (tolerance : Rat) (it : MatchedItem) : ProcessedItem :=
  let v := calculate_variance it.current_qty it.rm_in_qty
  { part_no := it.part_no
    description := it.description
    current_qty := it.current_qty
    rm_in_qty := it.rm_in_qty
    variance_percent := v.percent
    variance_absolute := v.absolute
    status := determine_status v.percent tolerance
    stock_value := it.stock_value
    vendor_code := it.vendor_code
    vendor_name := it.vendor_name
    match_type := it.match_type }

/-- `process_matched_data` (lines 580-637). The source builds
`processed_data` and `summary_data` in one loop; here the same list and
the same fold, written as `map` and `foldl`. -/
def process_matched_data (matched : List MatchedItem) (tolerance : Rat) :
    List ProcessedItem × Summary × Overall :=
  let processed := matched.map (processOne tolerance)
  let summary := processed.foldl
    (fun acc it => bumpSummary acc it.status it.stock_value it.variance_absolute)
    initSummary
  let total_rm_qty := (matched.map (·.rm_in_qty)).sum
  let total_current_qty := (matched.map (·.current_qty)).sum
  ( processed, summary,
    { total_parts := processed.length
      total_rm_qty := total_rm_qty
      total_current_qty := total_current_qty
      overall_variance_percent :=
        if total_rm_qty > 0 then (total_current_qty - total_rm_qty) / total_rm_qty * 100
        else 0
      total_stock_value := (processed.map (·.stock_value)).sum
      avg_variance :=
        if processed ≠ [] then (processed.map (·.variance_percent)).sum / processed.length
        else 0 } )

/-! ### Vendor rollup of `generate_detailed_report` (lines 669-683) -/

/-- The vendor grouping key (line 671):
`item['Vendor_Name'] or item['Vendor_Code']` — Python `or` falls back to
the vendor code exactly when the vendor name is the empty string. -/
def vendorKey (it : ProcessedItem) : String :=
  if it.vendor_name = "" then it.vendor_code else it.vendor_name

/-- The keys of the `vendor_stats` dict in insertion order (lines
670-681): one entry per distinct `vendorKey` of the processed records. -/
def vendorGroupKeys (l : List ProcessedItem) : List String :=
  l.foldl (fun acc it => if vendorKey it ∈ acc then acc else acc ++ [vendorKey it]) []

/-- One vendor group of `vendor_stats` (lines 673-681). -/
structure VendorStats where
  total_parts : Nat
  total_value : Int
  withinCount : Nat
  excessCount : Nat
  shortCount : Nat
deriving DecidableEq

/-- The accumulated stats of the vendor group keyed `v` (lines 679-681). -/
def vendorStatsOf (l : List ProcessedItem) (v : String) : VendorStats :=
  (l.filter (fun it => vendorKey it == v)).foldl
    (fun acc it =>
      { total_parts := acc.total_parts + 1
        total_value := acc.total_value + it.stock_value
        withinCount := acc.withinCount + (if it.status = .withinNorms then 1 else 0)
        excessCount := acc.excessCount + (if it.status = .excessInv then 1 else 0)
        shortCount := acc.shortCount + (if it.status = .shortInv then 1 else 0) })
    ⟨0, 0, 0, 0, 0⟩

/-! ### Row standardization (`standardize_pfep_data` lines 385-409 and
`standardize_current_inventory` lines 462-483, per-row stage)

The column-resolution stage maps each raw row to its part-number cell
(a string, Python `str(...)` of the cell) and its quantity cell; the
per-row loop below is what the claims are about. -/

/-- A raw table row after column resolution: the part-number cell as the
string `str(cell)`, and the quantity cell. -/
structure RawRow where
  part_field : String
  qty_field : PyValue
deriving DecidableEq

/-- The null-sentinel test of lines 390 and 467:
`part_no and part_no.lower() not in ['nan', '', 'null']` on the stripped
part number, together with `rm_qty >= 0` this is the row-keep condition. -/
def keepRow (r : RawRow) : Bool :=
  let p := trimChars r.part_field.toList
  !(p.isEmpty) && !((p.map Char.toLower) ∈ [String.toList "nan", [], String.toList "null"])
    && decide (0 ≤ safe_float_convert r.qty_field)

/-- A kept PFEP row: the stripped part number and the coerced quantity
(lines 387-394; the optional fields do not bear on any claim). -/
structure PfepRow where
  part_no : List Char
  rm_in_qty : Rat
deriving DecidableEq

/-- The per-row loop of `standardize_pfep_data` (lines 385-409): kept
rows in order plus the `skipped_rows` counter. Rows are only ever
dropped and counted, never raised as errors. -/
def standardize_pfep_rows (rows : List RawRow) : List PfepRow × Nat :=
  ((rows.filter keepRow).map
      (fun r => ⟨trimChars r.part_field.toList, safe_float_convert r.qty_field⟩),
    rows.countP (fun r => !keepRow r))

/-- The per-row loop of `standardize_current_inventory` (lines 462-483):
identical keep rule on the part number and the coerced current
quantity. -/
def standardize_inventory_rows (rows : List RawRow) : List PfepRow × Nat :=
  ((rows.filter keepRow).map
      (fun r => ⟨trimChars r.part_field.toList, safe_float_convert r.qty_field⟩),
    rows.countP (fun r => !keepRow r))

/-- Decidable existence test: some reference record matches `c` on the
normalized `(part_no, description)` pair. -/
def hasExact (pfep : List PfepItem) (c : CurrentItem) : Bool :=
  pfep.any (fun p => (normKey p.part_no, normKey p.description)
    == (normKey c.part_no, normKey c.description))

/-- Decidable existence test: some reference record matches `c` on the
normalized part number alone. -/
def hasPart (pfep : List PfepItem) (c : CurrentItem) : Bool :=
  pfep.any (fun p => normKey p.part_no == normKey c.part_no)

/-- Modelled from the spec (§4.3), for comparison with the code: the
reference records whose normalized part number appears in no inventory
record. The source never computes or returns such a list. -/
def unmatched_reference_spec (pfep : List PfepItem) (inv : List CurrentItem) :
    List PfepItem :=
  pfep.filter (fun p => !(inv.any (fun c => normKey c.part_no == normKey p.part_no)))

/-! ### Classifier lemmas -/

lemma determine_status_within_iff (vp tol : Rat) :
    determine_status vp tol = .withinNorms ↔ |vp| ≤ tol := by
  unfold determine_status
  split_ifs with h1 h2 <;> simp_all

lemma determine_status_excess_iff (vp tol : Rat) :
    determine_status vp tol = .excessInv ↔ vp > tol := by
  unfold determine_status
  split_ifs with h1 h2 <;> simp_all
  have := (abs_le.mp h1).2
  linarith

lemma determine_status_short_iff (vp tol : Rat) (htol : 0 ≤ tol) :
    determine_status vp tol = .shortInv ↔ vp < -tol := by
  unfold determine_status
  split_ifs with h1 h2 <;> simp_all
  · have := (abs_le.mp h1).1
    linarith
  · linarith
  · rcases abs_cases vp with ⟨he, _⟩ | ⟨he, _⟩ <;> rw [he] at h1 <;> linarith

/-- C1: for every on-hand quantity, target quantity and tolerance ≥ 0,
`calculate_variance` followed by `determine_status` implements the
reference rule: a zero target gives variance 0 and `Within Norms`
regardless of the on-hand quantity; otherwise the variance percentage is
`(on_hand - target) / target * 100`, and the status is `Within Norms`
exactly when `|variance| ≤ tolerance` (ties at `±tolerance` inclusive),
`Excess Inventory` exactly when `variance > tolerance`, and
`Short Inventory` exactly when `variance < -tolerance`; equal on-hand
and target quantities always classify as `Within Norms`. -/
theorem C1_classifier_rule (cq rq tol : Rat) (htol : 0 ≤ tol) :
    (calculate_variance cq rq).percent =
        (if rq = 0 then 0 else (cq - rq) / rq * 100) ∧
    (determine_status (calculate_variance cq rq).percent tol = .withinNorms ↔
        |(calculate_variance cq rq).percent| ≤ tol) ∧
    (determine_status (calculate_variance cq rq).percent tol = .excessInv ↔
        (calculate_variance cq rq).percent > tol) ∧
    (determine_status (calculate_variance cq rq).percent tol = .shortInv ↔
        (calculate_variance cq rq).percent < -tol) ∧
    (rq = 0 → determine_status (calculate_variance cq rq).percent tol = .withinNorms) ∧
    (cq = rq → determine_status (calculate_variance cq rq).percent tol = .withinNorms) := by
  have hperc : (calculate_variance cq rq).percent =
      (if rq = 0 then 0 else (cq - rq) / rq * 100) := by
    unfold calculate_variance
    split_ifs <;> simp
  refine ⟨hperc, determine_status_within_iff _ _, determine_status_excess_iff _ _,
    determine_status_short_iff _ _ htol, ?_, ?_⟩
  · intro h0
    rw [determine_status_within_iff, hperc, if_pos h0]
    simpa using htol
  · intro heq
    rw [determine_status_within_iff, hperc]
    split_ifs
    · simpa using htol
    · rw [heq]
      simpa using htol

/-- Witness for C1 at a concrete input: on-hand 5, target 4,
tolerance 30 gives variance 25 and `Within Norms`. -/
theorem C1_classifier_rule_witness :
    determine_status (calculate_variance 5 4).percent 30 = .withinNorms ∧
    (calculate_variance 5 4).percent = 25 := by
  have h := C1_classifier_rule 5 4 30 (by norm_num)
  have hp : (calculate_variance (5 : Rat) 4).percent = 25 := by
    rw [h.1]
    norm_num
  exact ⟨h.2.1.mpr (by rw [hp]; norm_num), hp⟩

/-- C4: `safe_float_convert` fails closed: it is a total function that
returns 0 on `None`, NaN, the empty string and every string whose
cleaned-up form does not parse as a decimal number, and on the
documented edge cases it returns the claimed values:
`"1,234.50" ↦ 1234.5`, `"(500)" ↦ -500`, `"12%" ↦ 12`, `"abc" ↦ 0`. -/
theorem C4_coercion_fails_closed :
    safe_float_convert .pnone = 0 ∧
    safe_float_convert .pnan = 0 ∧
    safe_float_convert (.pstr "") = 0 ∧
    (∀ s : String,
      pyFloatParts (parenNegative (stripPercent (stripFormat s))) = none →
      safe_float_convert (.pstr s) = 0) ∧
    safe_float_convert (.pstr "1,234.50") = 12345 / 10 ∧
    safe_float_convert (.pstr "(500)") = -500 ∧
    safe_float_convert (.pstr "12%") = 12 ∧
    safe_float_convert (.pstr "abc") = 0 := by
  refine ⟨rfl, rfl, by simp [safe_float_convert], ?_, ?_, ?_, ?_, ?_⟩
  · intro s h
    by_cases hs : s = "" <;> simp [safe_float_convert, hs, h]
  · have h : pyFloatParts (parenNegative (stripPercent
        (stripFormat "1,234.50"))) = some (123450, 2) := by decide
    simp [safe_float_convert, h, ratOfParts]
    norm_num
  · have h : pyFloatParts (parenNegative (stripPercent
        (stripFormat "(500)"))) = some (-500, 0) := by decide
    simp [safe_float_convert, h, ratOfParts]
  · have h : pyFloatParts (parenNegative (stripPercent
        (stripFormat "12%"))) = some (12, 0) := by decide
    simp [safe_float_convert, h, ratOfParts]
  · have h : pyFloatParts (parenNegative (stripPercent
        (stripFormat "abc"))) = none := by decide
    simp [safe_float_convert, h]

/-- Witness for C4's universally quantified conjunct at the concrete
unparsable string `"xyz"`. -/
theorem C4_coercion_fails_closed_witness :
    safe_float_convert (.pstr "xyz") = 0 :=
  C4_coercion_fails_closed.2.2.2.1 "xyz" (by decide)

/-- C7 counterexample: the claim says integer coercion is
`floor(to_number(raw))`; on `"(500.7)"` the code truncates toward zero
and returns `-500`, while the floor of `-500.7` is `-501`. -/
theorem C7_counterexample :
    safe_int_convert (.pstr "(500.7)") = -500 ∧
    safe_float_convert (.pstr "(500.7)") = -5007 / 10 ∧
    ⌊safe_float_convert (.pstr "(500.7)")⌋ = -501 ∧
    (-500 : Int) ≠ -501 := by
  have h : pyFloatParts (parenNegative (stripPercent
      (stripFormat "(500.7)"))) = some (-5007, 1) := by decide
  have hf : safe_float_convert (.pstr "(500.7)") = -5007 / 10 := by
    simp [safe_float_convert, h, ratOfParts]
    try norm_num
  refine ⟨?_, hf, ?_, by decide⟩
  · simp [safe_int_convert, hf, pyInt]
    norm_num
  · rw [hf]
    norm_num

/-- C7 amended: integer coercion truncates toward zero — it is the
floor of the float coercion for nonnegative values and the ceiling for
negative values (so on negative non-integral inputs it is NOT the
floor). -/
theorem C7_truncation_rule (v : PyValue) :
    safe_int_convert v =
      (if safe_float_convert v < 0 then ⌈safe_float_convert v⌉
       else ⌊safe_float_convert v⌋) := by
  unfold safe_int_convert pyInt
  split_ifs with h
  · rw [Int.floor_neg]
    simp
  · rfl

/-- C5 counterexample: the claim says no condition on the coerced
quantity causes a row drop; the row `("A", "(5)")` has a valid part
identifier but its quantity coerces to `-5 < 0`, and the code drops
it (the keep condition at line 390 requires `rm_qty >= 0`). -/
theorem C5_counterexample :
    trimChars (String.toList "A") ≠ [] ∧
    (trimChars (String.toList "A")).map Char.toLower ∉
      [String.toList "nan", [], String.toList "null"] ∧
    safe_float_convert (.pstr "(5)") = -5 ∧
    standardize_pfep_rows [⟨"A", .pstr "(5)"⟩] = ([], 1) := by
  have h : pyFloatParts (parenNegative (stripPercent
      (stripFormat "(5)"))) = some (-5, 0) := by decide
  have hf : safe_float_convert (.pstr "(5)") = -5 := by
    simp [safe_float_convert, h, ratOfParts]
  have hk : keepRow ⟨"A", .pstr "(5)"⟩ = false := by
    simp [keepRow, hf]
  refine ⟨by decide, by decide, hf, ?_⟩
  simp [standardize_pfep_rows, List.filter, List.countP, List.countP.go, hk]

/-- C5 amended: during row standardization (both tables) a row is
dropped, silently and counted, if and only if its stripped part
identifier is empty, or equals a null sentinel case-insensitively, or
its coerced quantity is negative; kept plus skipped rows account for
every input row. -/
theorem C5_row_drop_rule (rows : List RawRow) :
    (standardize_pfep_rows rows).1.length + (standardize_pfep_rows rows).2
        = rows.length ∧
    (standardize_inventory_rows rows).1.length + (standardize_inventory_rows rows).2
        = rows.length ∧
    (∀ r : RawRow,
      keepRow r = false ↔
        (trimChars r.part_field.toList = [] ∨
         (trimChars r.part_field.toList).map Char.toLower ∈
            [String.toList "nan", [], String.toList "null"] ∨
         safe_float_convert r.qty_field < 0)) := by
  have hlen : ∀ l : List RawRow,
      (l.filter keepRow).length + l.countP (fun r => !keepRow r) = l.length := by
    intro l
    induction l with
    | nil => simp
    | cons r rest ih =>
      by_cases hr : keepRow r <;>
        simp [List.filter_cons, List.countP_cons, hr] <;> omega
  refine ⟨by simpa [standardize_pfep_rows] using hlen rows,
    by simpa [standardize_inventory_rows] using hlen rows, ?_⟩
  intro r
  simp [keepRow, List.isEmpty_iff, not_le]
  tauto

/-- Witness for C5's amended per-row rule: the concrete row
`("ok", "3")` is kept (none of the three drop conditions holds). -/
theorem C5_row_drop_rule_witness :
    keepRow ⟨"ok", .pstr "3"⟩ = true := by
  have h := (C5_row_drop_rule []).2.2 ⟨"ok", .pstr "3"⟩
  have h3 : pyFloatParts (parenNegative (stripPercent
      (stripFormat "3"))) = some (3, 0) := by decide
  have hf : safe_float_convert (.pstr "3") = 3 := by
    simp [safe_float_convert, h3, ratOfParts]
  rcases hb : keepRow ⟨"ok", .pstr "3"⟩ with _ | _
  · exfalso
    rcases h.mp hb with hc | hc | hc
    · exact absurd hc (by decide)
    · exact absurd hc (by decide)
    · rw [hf] at hc
      norm_num at hc
  · rfl

/-! ### Matcher lemmas -/

lemma lookupLast_isSome_iff (p : α → Bool) (l : List α) :
    (lookupLast p l).isSome ↔ ∃ a ∈ l, p a := by
  simp [lookupLast, List.find?_isSome]

lemma exactLookup_isSome_iff (pfep : List PfepItem) (c : CurrentItem) :
    (exactLookup pfep (normKey c.part_no, normKey c.description)).isSome ↔
      ∃ p ∈ pfep, normKey p.part_no = normKey c.part_no ∧
        normKey p.description = normKey c.description := by
  rw [exactLookup, lookupLast_isSome_iff]
  simp [Prod.ext_iff]

lemma partLookup_isSome_iff (pfep : List PfepItem) (k : List Char) :
    (partLookup pfep k).isSome ↔ ∃ p ∈ pfep, normKey p.part_no = k := by
  rw [partLookup, lookupLast_isSome_iff]
  simp

lemma hasExact_iff (pfep : List PfepItem) (c : CurrentItem) :
    hasExact pfep c = true ↔
      ∃ p ∈ pfep, normKey p.part_no = normKey c.part_no ∧
        normKey p.description = normKey c.description := by
  simp [hasExact, Prod.ext_iff]

lemma hasPart_iff (pfep : List PfepItem) (c : CurrentItem) :
    hasPart pfep c = true ↔ ∃ p ∈ pfep, normKey p.part_no = normKey c.part_no := by
  simp [hasPart]

lemma matchOne_cases (pfep : List PfepItem) (c : CurrentItem) :
    (hasExact pfep c = true →
      ∃ p, matchOne pfep c = some (mkMatched c p .exactMatch)) ∧
    (hasExact pfep c = false → hasPart pfep c = true →
      ∃ p, matchOne pfep c = some (mkMatched c p .partOnly)) ∧
    (hasPart pfep c = false → matchOne pfep c = none) := by
  refine ⟨?_, ?_, ?_⟩
  · intro h
    rw [hasExact_iff] at h
    rw [← exactLookup_isSome_iff] at h
    rcases Option.isSome_iff_exists.mp h with ⟨p, hp⟩
    exact ⟨p, by simp [matchOne, hp]⟩
  · intro he hp
    have he2 : exactLookup pfep (normKey c.part_no, normKey c.description) = none := by
      rw [← Option.not_isSome_iff_eq_none, exactLookup_isSome_iff, ← hasExact_iff, he]
      simp
    rw [hasPart_iff, ← partLookup_isSome_iff] at hp
    rcases Option.isSome_iff_exists.mp hp with ⟨p, hpp⟩
    exact ⟨p, by simp [matchOne, he2, hpp]⟩
  · intro h
    have hp2 : partLookup pfep (normKey c.part_no) = none := by
      rw [← Option.not_isSome_iff_eq_none, partLookup_isSome_iff, ← hasPart_iff, h]
      simp
    have hnp : ¬∃ p ∈ pfep, normKey p.part_no = normKey c.part_no := by
      rw [← hasPart_iff, h]
      simp
    have he2 : exactLookup pfep (normKey c.part_no, normKey c.description) = none := by
      rw [← Option.not_isSome_iff_eq_none, exactLookup_isSome_iff]
      intro hex
      rcases hex with ⟨p, hmem, h1, _⟩
      exact hnp ⟨p, hmem, h1⟩
    simp [matchOne, he2, hp2]

lemma hasPart_of_hasExact (pfep : List PfepItem) (c : CurrentItem) :
    hasExact pfep c = true → hasPart pfep c = true := by
  rw [hasExact_iff, hasPart_iff]
  rintro ⟨p, hmem, h1, _⟩
  exact ⟨p, hmem, h1⟩

lemma match_inventory_data_nil (pfep : List PfepItem) :
    match_inventory_data pfep [] = ([], [], ⟨0, 0, 0⟩) := rfl

lemma match_inventory_data_cons (pfep : List PfepItem) (c : CurrentItem)
    (rest : List CurrentItem) :
    match_inventory_data pfep (c :: rest) =
      (match matchOne pfep c with
       | some mi =>
         (mi :: (match_inventory_data pfep rest).1,
          (match_inventory_data pfep rest).2.1,
          match mi.match_type with
          | .exactMatch =>
            ⟨(match_inventory_data pfep rest).2.2.exactCount + 1,
             (match_inventory_data pfep rest).2.2.partOnlyCount,
             (match_inventory_data pfep rest).2.2.noMatchCount⟩
          | .partOnly =>
            ⟨(match_inventory_data pfep rest).2.2.exactCount,
             (match_inventory_data pfep rest).2.2.partOnlyCount + 1,
             (match_inventory_data pfep rest).2.2.noMatchCount⟩)
       | none =>
         ((match_inventory_data pfep rest).1,
          c :: (match_inventory_data pfep rest).2.1,
          ⟨(match_inventory_data pfep rest).2.2.exactCount,
           (match_inventory_data pfep rest).2.2.partOnlyCount,
           (match_inventory_data pfep rest).2.2.noMatchCount + 1⟩)) := rfl

lemma match_inventory_data_spec (pfep : List PfepItem) (inv : List CurrentItem) :
    (match_inventory_data pfep inv).1 = inv.filterMap (matchOne pfep) ∧
    (match_inventory_data pfep inv).2.1 =
      inv.filter (fun c => (matchOne pfep c).isNone) ∧
    (match_inventory_data pfep inv).2.2.exactCount = inv.countP (hasExact pfep) ∧
    (match_inventory_data pfep inv).2.2.partOnlyCount =
      inv.countP (fun c => !hasExact pfep c && hasPart pfep c) ∧
    (match_inventory_data pfep inv).2.2.noMatchCount =
      inv.countP (fun c => !hasPart pfep c) := by
  induction inv with
  | nil => simp [match_inventory_data_nil]
  | cons c rest ih =>
    obtain ⟨ih1, ih2, ih3, ih4, ih5⟩ := ih
    rcases hp : hasPart pfep c with _ | _
    · have he : hasExact pfep c = false := by
        by_contra hne
        rw [Bool.not_eq_false] at hne
        rw [hasPart_of_hasExact pfep c hne] at hp
        cases hp
      have hm : matchOne pfep c = none := (matchOne_cases pfep c).2.2 hp
      rw [match_inventory_data_cons]
      simp [hm, List.filterMap_cons, List.filter_cons, List.countP_cons,
        he, hp, ih1, ih2, ih3, ih4, ih5]
    · rcases he : hasExact pfep c with _ | _
      · obtain ⟨p, hm⟩ := (matchOne_cases pfep c).2.1 he hp
        rw [match_inventory_data_cons]
        simp [hm, mkMatched, List.filterMap_cons, List.filter_cons,
          List.countP_cons, he, hp, ih1, ih2, ih3, ih4, ih5]
      · obtain ⟨p, hm⟩ := (matchOne_cases pfep c).1 he
        rw [match_inventory_data_cons]
        simp [hm, mkMatched, List.filterMap_cons, List.filter_cons,
          List.countP_cons, he, hp, ih1, ih2, ih3, ih4, ih5]

/-- C2: the matcher evaluates each inventory record independently
(matched list and unmatched list are a `filterMap`/`filter` of the
per-record rule over the inventory), the per-record rule tries the
normalized `(part_no, description)` exact match first (tag `exact`),
then the normalized part-number match (tag `part_only`), else leaves the
record unmatched, and the stats count the three outcomes. -/
theorem C2_matching_policy (pfep : List PfepItem) (inv : List CurrentItem) :
    (match_inventory_data pfep inv).1 = inv.filterMap (matchOne pfep) ∧
    (match_inventory_data pfep inv).2.1 =
      inv.filter (fun c => (matchOne pfep c).isNone) ∧
    (∀ c : CurrentItem,
      ((∃ p ∈ pfep, normKey p.part_no = normKey c.part_no ∧
          normKey p.description = normKey c.description) →
        ∃ p, matchOne pfep c = some (mkMatched c p .exactMatch)) ∧
      (¬(∃ p ∈ pfep, normKey p.part_no = normKey c.part_no ∧
          normKey p.description = normKey c.description) →
        (∃ p ∈ pfep, normKey p.part_no = normKey c.part_no) →
        ∃ p, matchOne pfep c = some (mkMatched c p .partOnly)) ∧
      (¬(∃ p ∈ pfep, normKey p.part_no = normKey c.part_no) →
        matchOne pfep c = none)) ∧
    (match_inventory_data pfep inv).2.2.exactCount = inv.countP (hasExact pfep) ∧
    (match_inventory_data pfep inv).2.2.partOnlyCount =
      inv.countP (fun c => !hasExact pfep c && hasPart pfep c) ∧
    (match_inventory_data pfep inv).2.2.noMatchCount =
      inv.countP (fun c => !hasPart pfep c) := by
  obtain ⟨h1, h2, h3, h4, h5⟩ := match_inventory_data_spec pfep inv
  refine ⟨h1, h2, ?_, h3, h4, h5⟩
  intro c
  obtain ⟨m1, m2, m3⟩ := matchOne_cases pfep c
  refine ⟨fun hex => m1 ((hasExact_iff pfep c).mpr hex), ?_, ?_⟩
  · intro hnex hpart
    refine m2 ?_ ((hasPart_iff pfep c).mpr hpart)
    rcases he : hasExact pfep c with _ | _
    · rfl
    · exact absurd ((hasExact_iff pfep c).mp he) hnex
  · intro hnpart
    refine m3 ?_
    rcases hpb : hasPart pfep c with _ | _
    · rfl
    · exact absurd ((hasPart_iff pfep c).mp hpb) hnpart

/-- Witness for C2 at a concrete input: a reference record for part
`"a1"` with description `"Widget"` and an inventory record `"A1 "` with
description `"widget "` match exactly (case-insensitive, trimmed). -/
theorem C2_matching_policy_witness :
    ∃ p, matchOne [⟨"a1", "Widget", 10, "V", "VN", "C", "S"⟩]
      ⟨"A1 ", "widget ", 12, 100⟩ = some
        (mkMatched ⟨"A1 ", "widget ", 12, 100⟩ p .exactMatch) :=
  ((C2_matching_policy [⟨"a1", "Widget", 10, "V", "VN", "C", "S"⟩]
    [⟨"A1 ", "widget ", 12, 100⟩]).2.2.1 ⟨"A1 ", "widget ", 12, 100⟩).1
    ⟨⟨"a1", "Widget", 10, "V", "VN", "C", "S"⟩, by simp, by decide, by decide⟩

/-- C10: the matcher partitions the inventory — matched plus unmatched
lengths equal the inventory length, the exact and part-only stats add
up to the matched count, and the no-match stat equals the unmatched
count. -/
theorem C10_matcher_partition (pfep : List PfepItem) (inv : List CurrentItem) :
    (match_inventory_data pfep inv).1.length +
        (match_inventory_data pfep inv).2.1.length = inv.length ∧
    (match_inventory_data pfep inv).2.2.exactCount +
        (match_inventory_data pfep inv).2.2.partOnlyCount =
      (match_inventory_data pfep inv).1.length ∧
    (match_inventory_data pfep inv).2.2.noMatchCount =
      (match_inventory_data pfep inv).2.1.length := by
  induction inv with
  | nil => simp [match_inventory_data_nil]
  | cons c rest ih =>
    obtain ⟨ih1, ih2, ih3⟩ := ih
    rw [match_inventory_data_cons]
    rcases hm : matchOne pfep c with _ | mi
    · simp only [hm]
      exact ⟨by simp; omega, by simpa using ih2, by simp [ih3]⟩
    · rcases ht : mi.match_type with _ | _ <;> simp only [hm, ht] <;>
        exact ⟨by simp; omega, by simp; omega, by simpa using ih3⟩

lemma find?_eq_some_split {p : α → Bool} {l : List α} {a : α}
    (h : l.find? p = some a) :
    p a = true ∧ ∃ l1 l2, l = l1 ++ a :: l2 ∧ ∀ b ∈ l1, p b = false := by
  induction l with
  | nil => simp at h
  | cons x xs ih =>
    rcases hx : p x with _ | _
    · rw [List.find?_cons_of_neg _ (by simp [hx])] at h
      obtain ⟨hpa, l1, l2, hsplit, hall⟩ := ih h
      refine ⟨hpa, x :: l1, l2, by rw [hsplit]; rfl, ?_⟩
      intro b hb
      rcases List.mem_cons.mp hb with rfl | hb2
      · exact hx
      · exact hall b hb2
    · rw [List.find?_cons_of_pos _ hx] at h
      obtain rfl := Option.some.inj h
      exact ⟨hx, [], xs, rfl, by simp⟩

/-- C6 counterexample: two reference records share the part number
`"A"` (descriptions differ); an inventory record for `"A"` whose
description matches neither reference record matches part-only, and the
matched record carries `rm_in_qty = 20` — the data of the SECOND
(last-inserted) reference record, not the first one (whose target is
10), refuting first-in-insertion-order resolution. -/
theorem C6_counterexample :
    (match_inventory_data
        [⟨"A", "D1", 10, "", "", "", ""⟩, ⟨"A", "D2", 20, "", "", "", ""⟩]
        [⟨"A", "X", 1, 0⟩]).1.map (fun mi => (mi.rm_in_qty, mi.match_type)) =
      [(20, .partOnly)] ∧
    ((10 : Rat), MatchType.partOnly) ≠ ((20 : Rat), MatchType.partOnly) := by
  constructor
  · decide
  · decide

/-- C6 amended: a part-only match resolves to the LAST reference record
with that normalized part number in the reference table's insertion
order (the lookup dict is built by insertion, later records overwrite
earlier ones); when any reference record has the part number, the
lookup succeeds. -/
theorem C6_part_only_last_wins (pfep : List PfepItem) (c : CurrentItem) (p : PfepItem)
    (hnoexact : exactLookup pfep (normKey c.part_no, normKey c.description) = none)
    (hfound : partLookup pfep (normKey c.part_no) = some p) :
    matchOne pfep c = some (mkMatched c p .partOnly) ∧
    normKey p.part_no = normKey c.part_no ∧
    ∃ l1 l2, pfep = l1 ++ p :: l2 ∧
      ∀ q ∈ l2, normKey q.part_no ≠ normKey c.part_no := by
  refine ⟨by simp [matchOne, hnoexact, hfound], ?_, ?_⟩
  · have := (find?_eq_some_split hfound).1
    simpa using this
  · obtain ⟨_, r1, r2, hsplit, hall⟩ := find?_eq_some_split hfound
    refine ⟨r2.reverse, r1.reverse, ?_, ?_⟩
    · have : pfep.reverse.reverse = (r1 ++ p :: r2).reverse := by rw [hsplit]
      simpa using this
    · intro q hq
      have hq1 : q ∈ r1 := by simpa using hq
      have := hall q hq1
      simpa using this

/-- Witness for C6 at the counterexample input: the part-only lookup
for the duplicated part `"A"` resolves to the second reference record,
with the first record alone in the decomposition's tail remainder. -/
theorem C6_part_only_last_wins_witness :
    matchOne [⟨"A", "D1", 10, "", "", "", ""⟩, ⟨"A", "D2", 20, "", "", "", ""⟩]
        ⟨"A", "X", 1, 0⟩ =
      some (mkMatched ⟨"A", "X", 1, 0⟩ ⟨"A", "D2", 20, "", "", "", ""⟩ .partOnly) :=
  (C6_part_only_last_wins
    [⟨"A", "D1", 10, "", "", "", ""⟩, ⟨"A", "D2", 20, "", "", "", ""⟩]
    ⟨"A", "X", 1, 0⟩ ⟨"A", "D2", 20, "", "", "", ""⟩
    (by decide) (by decide)).1

lemma find?_append_middle {p : α → Bool} (l1 l2 : List α) (a : α)
    (h : p a = false) :
    (l1 ++ a :: l2).find? p = (l1 ++ l2).find? p := by
  induction l1 with
  | nil => simpa using List.find?_cons_of_neg _ (by simp [h])
  | cons x xs ih =>
    rcases hx : p x with _ | _
    · rw [List.cons_append, List.find?_cons_of_neg _ (by simp [hx]),
        List.cons_append, List.find?_cons_of_neg _ (by simp [hx]), ih]
    · rw [List.cons_append, List.find?_cons_of_pos _ hx,
        List.cons_append, List.find?_cons_of_pos _ hx]

lemma lookupLast_middle {p : α → Bool} (l1 l2 : List α) (a : α)
    (h : p a = false) :
    lookupLast p (l1 ++ a :: l2) = lookupLast p (l1 ++ l2) := by
  unfold lookupLast
  have h1 : (l1 ++ a :: l2).reverse = l2.reverse ++ a :: l1.reverse := by
    simp
  have h2 : (l1 ++ l2).reverse = l2.reverse ++ l1.reverse := by
    simp
  rw [h1, h2, find?_append_middle _ _ _ h]

/-- C8 counterexample: the claim says the match operation returns an
`unmatched_reference` list; with one reference record and an empty
inventory, the record is unmatched by the claim's rule, yet the
operation's entire return value is two empty lists and zeroed stats —
no component carries the unmatched reference records. -/
theorem C8_counterexample :
    match_inventory_data [⟨"A", "D", 10, "", "", "", ""⟩] [] =
      ([], [], ⟨0, 0, 0⟩) ∧
    unmatched_reference_spec [⟨"A", "D", 10, "", "", "", ""⟩] [] =
      [⟨"A", "D", 10, "", "", "", ""⟩] ∧
    ([] : List PfepItem) ≠ [⟨"A", "D", 10, "", "", "", ""⟩] := by
  refine ⟨rfl, by decide, by decide⟩

/-- C8 amended: the match operation returns only the matched records,
the unmatched inventory records and the stats; reference records whose
normalized part number appears in no inventory record are invisible to
it — deleting such a record from the reference list leaves the entire
output unchanged, so no unmatched-reference information is returned. -/
theorem C8_no_unmatched_reference_output (pfep1 pfep2 : List PfepItem)
    (p : PfepItem) (inv : List CurrentItem)
    (h : ∀ c ∈ inv, normKey c.part_no ≠ normKey p.part_no) :
    match_inventory_data (pfep1 ++ p :: pfep2) inv =
      match_inventory_data (pfep1 ++ pfep2) inv := by
  induction inv with
  | nil => rfl
  | cons c rest ih =>
    have hc : normKey c.part_no ≠ normKey p.part_no := h c (by simp)
    have hrest : ∀ c2 ∈ rest, normKey c2.part_no ≠ normKey p.part_no := by
      intro c2 hc2
      exact h c2 (by simp [hc2])
    have hex : exactLookup (pfep1 ++ p :: pfep2)
        (normKey c.part_no, normKey c.description) =
        exactLookup (pfep1 ++ pfep2) (normKey c.part_no, normKey c.description) := by
      unfold exactLookup
      refine lookupLast_middle _ _ _ ?_
      simp [Prod.ext_iff]
      intro h1
      exact absurd h1.symm hc
    have hpart : partLookup (pfep1 ++ p :: pfep2) (normKey c.part_no) =
        partLookup (pfep1 ++ pfep2) (normKey c.part_no) := by
      unfold partLookup
      refine lookupLast_middle _ _ _ ?_
      simp
      intro h1
      exact absurd h1.symm hc
    have hone : matchOne (pfep1 ++ p :: pfep2) c = matchOne (pfep1 ++ pfep2) c := by
      unfold matchOne
      rw [hex, hpart]
    rw [match_inventory_data_cons, match_inventory_data_cons, hone, ih hrest]

/-- Witness for C8's amended invariance at a concrete input: removing
the reference record for part `"B"`, which no inventory record carries,
does not change the match output. -/
theorem C8_no_unmatched_reference_output_witness :
    match_inventory_data
        [⟨"A", "D", 10, "", "", "", ""⟩, ⟨"B", "E", 7, "", "", "", ""⟩]
        [⟨"A", "D", 12, 100⟩] =
      match_inventory_data [⟨"A", "D", 10, "", "", "", ""⟩] [⟨"A", "D", 12, 100⟩] :=
  C8_no_unmatched_reference_output [⟨"A", "D", 10, "", "", "", ""⟩] []
    ⟨"B", "E", 7, "", "", "", ""⟩ [⟨"A", "D", 12, 100⟩] (by decide)

/-! ### Aggregator lemmas -/

lemma bucket_bumpSummary (a : Summary) (st st' : Status) (v : Int) (dv : Rat) :
    (bumpSummary a st v dv).bucket st' =
      (if st = st' then
        ⟨(a.bucket st').count + 1, (a.bucket st').value + v,
          (a.bucket st').qty_variance + dv⟩
       else a.bucket st') := by
  cases st <;> cases st' <;> simp [bumpSummary, Summary.bucket]

lemma foldl_bumpSummary_spec (l : List ProcessedItem) (acc : Summary) (st : Status) :
    ((l.foldl (fun a it => bumpSummary a it.status it.stock_value it.variance_absolute)
        acc).bucket st).count =
      (acc.bucket st).count + l.countP (fun it => it.status == st) ∧
    ((l.foldl (fun a it => bumpSummary a it.status it.stock_value it.variance_absolute)
        acc).bucket st).value =
      (acc.bucket st).value +
        ((l.filter (fun it => it.status == st)).map (·.stock_value)).sum := by
  induction l generalizing acc with
  | nil => simp
  | cons it rest ih =>
    simp only [List.foldl_cons]
    obtain ⟨ihc, ihv⟩ := ih (bumpSummary acc it.status it.stock_value it.variance_absolute)
    rw [ihc, ihv, bucket_bumpSummary]
    by_cases h : it.status = st
    · simp [h, List.countP_cons, List.filter_cons]
      constructor
      · omega
      · ring
    · have hb : (it.status == st) = false := by simp [h]
      simp [h, List.countP_cons, List.filter_cons, hb]

lemma process_matched_data_processed (matched : List MatchedItem) (tolerance : Rat) :
    (process_matched_data matched tolerance).1 = matched.map (processOne tolerance) := rfl

lemma process_matched_data_summary (matched : List MatchedItem) (tolerance : Rat) :
    (process_matched_data matched tolerance).2.1 =
      (matched.map (processOne tolerance)).foldl
        (fun acc it => bumpSummary acc it.status it.stock_value it.variance_absolute)
        initSummary := rfl

lemma process_matched_data_overall (matched : List MatchedItem) (tolerance : Rat) :
    (process_matched_data matched tolerance).2.2 =
      { total_parts := (matched.map (processOne tolerance)).length
        total_rm_qty := (matched.map (·.rm_in_qty)).sum
        total_current_qty := (matched.map (·.current_qty)).sum
        overall_variance_percent :=
          if (matched.map (·.rm_in_qty)).sum > 0 then
            ((matched.map (·.current_qty)).sum - (matched.map (·.rm_in_qty)).sum) /
              (matched.map (·.rm_in_qty)).sum * 100
          else 0
        total_stock_value := ((matched.map (processOne tolerance)).map (·.stock_value)).sum
        avg_variance :=
          if matched.map (processOne tolerance) ≠ [] then
            ((matched.map (processOne tolerance)).map (·.variance_percent)).sum /
              ((matched.map (processOne tolerance)).length : Rat)
          else 0 } := rfl

lemma initSummary_bucket (st : Status) : initSummary.bucket st = ⟨0, 0, 0⟩ := by
  cases st <;> rfl

/-- C3: aggregation counts and value-sums each status bucket over the
classified records (pre-seeded buckets, so absent statuses report 0),
`total_parts` is the record count, `overall_variance_percent` is
`(Σ on_hand − Σ target) / Σ target * 100` with 0 when the denominator
is 0, and `avg_variance` is the mean `variance_percent` with 0 on the
empty list. Targets are nonnegative per the data model. -/
theorem C3_aggregation (matched : List MatchedItem) (tolerance : Rat)
    (h : ∀ it ∈ matched, 0 ≤ it.rm_in_qty) :
    (∀ st : Status,
      ((process_matched_data matched tolerance).2.1.bucket st).count =
        (process_matched_data matched tolerance).1.countP (fun it => it.status == st) ∧
      ((process_matched_data matched tolerance).2.1.bucket st).value =
        (((process_matched_data matched tolerance).1.filter
            (fun it => it.status == st)).map (·.stock_value)).sum) ∧
    (process_matched_data matched tolerance).2.2.total_parts = matched.length ∧
    (process_matched_data matched tolerance).2.2.overall_variance_percent =
      (if (matched.map (·.rm_in_qty)).sum = 0 then 0
       else ((matched.map (·.current_qty)).sum - (matched.map (·.rm_in_qty)).sum) /
          (matched.map (·.rm_in_qty)).sum * 100) ∧
    (process_matched_data matched tolerance).2.2.avg_variance =
      (if matched = [] then 0
       else ((process_matched_data matched tolerance).1.map (·.variance_percent)).sum /
          (matched.length : Rat)) := by
  refine ⟨?_, ?_, ?_, ?_⟩
  · intro st
    rw [process_matched_data_summary, process_matched_data_processed]
    have := foldl_bumpSummary_spec (matched.map (processOne tolerance)) initSummary st
    rw [initSummary_bucket] at this
    simpa using this
  · have hproj : (process_matched_data matched tolerance).2.2.total_parts =
        (matched.map (processOne tolerance)).length := rfl
    rw [hproj, List.length_map]
  · have hproj : (process_matched_data matched tolerance).2.2.overall_variance_percent =
        (if (matched.map (·.rm_in_qty)).sum > 0 then
          ((matched.map (·.current_qty)).sum - (matched.map (·.rm_in_qty)).sum) /
            (matched.map (·.rm_in_qty)).sum * 100
         else 0) := rfl
    rw [hproj]
    have hsum : 0 ≤ (matched.map (·.rm_in_qty)).sum := by
      refine List.sum_nonneg ?_
      intro x hx
      obtain ⟨it, hit, rfl⟩ := List.mem_map.mp hx
      exact h it hit
    rcases eq_or_lt_of_le hsum with heq | hlt
    · rw [if_neg (by rw [← heq]; exact lt_irrefl 0), if_pos heq.symm]
    · rw [if_pos hlt, if_neg (ne_of_gt hlt)]
  · have hproj : (process_matched_data matched tolerance).2.2.avg_variance =
        (if matched.map (processOne tolerance) ≠ [] then
          ((matched.map (processOne tolerance)).map (·.variance_percent)).sum /
            ((matched.map (processOne tolerance)).length : Rat)
         else 0) := rfl
    rw [hproj, process_matched_data_processed]
    by_cases hm : matched = []
    · simp [hm]
    · have hne : matched.map (processOne tolerance) ≠ [] := by
        simpa using hm
      rw [if_pos hne, if_neg hm, List.length_map]

/-- Witness for C3 at one concrete matched record (on-hand 5, target 4,
value 100, tolerance 30): one processed part, `Within Norms` bucket
count 1 and value 100, overall variance 25%. -/
theorem C3_aggregation_witness :
    (process_matched_data [⟨"P", "D", 5, 4, 100, "", "", "", "", .exactMatch⟩]
        30).2.2.total_parts = 1 ∧
    (process_matched_data [⟨"P", "D", 5, 4, 100, "", "", "", "", .exactMatch⟩]
        30).2.2.overall_variance_percent = 25 := by
  have h := C3_aggregation [⟨"P", "D", 5, 4, 100, "", "", "", "", .exactMatch⟩] 30
    (by intro it hit; simp at hit; rw [hit]; norm_num)
  refine ⟨h.2.1, ?_⟩
  rw [h.2.2.1]
  norm_num

/-! ### Vendor rollup lemmas -/

lemma mem_vendorGroupKeys_foldl (l : List ProcessedItem) (acc : List String)
    (v : String) :
    (v ∈ l.foldl
        (fun a it => if vendorKey it ∈ a then a else a ++ [vendorKey it]) acc) ↔
      v ∈ acc ∨ ∃ it ∈ l, vendorKey it = v := by
  induction l generalizing acc with
  | nil => simp
  | cons it rest ih =>
    simp only [List.foldl_cons]
    rw [ih]
    by_cases hmem : vendorKey it ∈ acc
    · simp only [if_pos hmem]
      constructor
      · rintro (hv | hv)
        · exact Or.inl hv
        · right
          obtain ⟨it2, h2, h3⟩ := hv
          exact ⟨it2, by simp [h2], h3⟩
      · rintro (hv | ⟨it2, h2, h3⟩)
        · exact Or.inl hv
        · rcases List.mem_cons.mp h2 with rfl | h4
          · exact Or.inl (h3 ▸ hmem)
          · exact Or.inr ⟨it2, h4, h3⟩
    · simp only [if_neg hmem, List.mem_append, List.mem_singleton]
      constructor
      · rintro ((hv | hv) | hv)
        · exact Or.inl hv
        · exact Or.inr ⟨it, by simp, hv.symm⟩
        · obtain ⟨it2, h2, h3⟩ := hv
          exact Or.inr ⟨it2, by simp [h2], h3⟩
      · rintro (hv | ⟨it2, h2, h3⟩)
        · exact Or.inl (Or.inl hv)
        · rcases List.mem_cons.mp h2 with rfl | h4
          · exact Or.inl (Or.inr h3.symm)
          · exact Or.inr ⟨it2, h4, h3⟩

lemma vendorStatsOf_foldl_parts (l : List ProcessedItem) (acc : VendorStats) :
    (l.foldl
        (fun a it =>
          { total_parts := a.total_parts + 1
            total_value := a.total_value + it.stock_value
            withinCount := a.withinCount + (if it.status = .withinNorms then 1 else 0)
            excessCount := a.excessCount + (if it.status = .excessInv then 1 else 0)
            shortCount := a.shortCount + (if it.status = .shortInv then 1 else 0) })
        acc).total_parts = acc.total_parts + l.length := by
  induction l generalizing acc with
  | nil => simp
  | cons it rest ih =>
    simp only [List.foldl_cons]
    rw [ih]
    simp
    omega

/-- C9 counterexample: a processed record whose vendor name AND vendor
code are both empty is grouped under the empty-string key — the vendor
analysis of `generate_detailed_report` has no `"Unknown"` fallback, so
a vendor group with an empty-string key exists, refuting the claim. -/
theorem C9_counterexample :
    vendorGroupKeys [⟨"P", "D", 1, 1, 0, 0, .withinNorms, 0, "", "", .exactMatch⟩] =
      [""] ∧
    "" ∈ vendorGroupKeys
      [⟨"P", "D", 1, 1, 0, 0, .withinNorms, 0, "", "", .exactMatch⟩] := by
  refine ⟨by decide, by decide⟩

/-- C9 amended: the vendor rollup groups every processed record under
its vendor name, falling back to the vendor code exactly when the name
is empty; when both are empty the group key is the empty string (there
is no `"Unknown"` fallback), and the group keys are exactly the keys of
the records. -/
theorem C9_vendor_grouping (l : List ProcessedItem) :
    (∀ v : String, v ∈ vendorGroupKeys l ↔ ∃ it ∈ l, vendorKey it = v) ∧
    (∀ it : ProcessedItem,
      (it.vendor_name ≠ "" → vendorKey it = it.vendor_name) ∧
      (it.vendor_name = "" → vendorKey it = it.vendor_code)) ∧
    (∀ v : String, (vendorStatsOf l v).total_parts =
        l.countP (fun it => vendorKey it == v)) := by
  refine ⟨?_, ?_, ?_⟩
  · intro v
    rw [vendorGroupKeys, mem_vendorGroupKeys_foldl]
    simp
  · intro it
    constructor <;> intro h <;> simp [vendorKey, h]
  · intro v
    rw [vendorStatsOf, vendorStatsOf_foldl_parts]
    simp [List.countP_eq_length_filter]

/-- Witness for C9's amended grouping: a record with vendor name `"V"`
is grouped under `"V"`. -/
theorem C9_vendor_grouping_witness :
    "V" ∈ vendorGroupKeys
      [⟨"P", "D", 1, 1, 0, 0, .withinNorms, 0, "C1", "V", .exactMatch⟩] :=
  ((C9_vendor_grouping
      [⟨"P", "D", 1, 1, 0, 0, .withinNorms, 0, "C1", "V", .exactMatch⟩]).1 "V").mpr
    ⟨⟨"P", "D", 1, 1, 0, 0, .withinNorms, 0, "C1", "V", .exactMatch⟩, by simp, rfl⟩

end Quality

